import Mathlib

/-!
Verification of the secure middleware stack (rate limiter, IP blacklist
guard, sanitizer, field validator, client-key derivation) against its
natural-language specification.  All definitions are shallow embeddings of
the JavaScript source: JS `Date.now()` timestamps become `Int`
milliseconds, JS `Set` becomes an insertion-ordered duplicate-free
`List String`, JS objects become association lists, and functions that
`throw` return `Except`.
-/

/-! ## Rate limiter (middleware/rateLimiter.js)

The store keeps, per client key, the list of admission timestamps
(`clientData.requests`).  Each middleware call purges timestamps outside
the trailing window, then either denies (count ≥ maxRequests) or appends
`now`.  The two config fields the algorithm reads are `windowMs` and
`maxRequests`.
-/

structure RateConfig where
  windowMs : Int
  maxRequests : Nat
deriving DecidableEq

/-- Outcome of one rate-limiter call, projected to the data the response
carries: `remaining` on success, the `Retry-After` / `retryAfter` value
(in seconds) on denial. -/
inductive RateOutcome where
  | allowed (remaining : Int)
  | denied (retryAfterSeconds : Int)
deriving DecidableEq

/-- JS `Math.ceil(x / d)` on integers, for positive `d`. -/
def jsCeilDiv (x d : Int) : Int := -((-x).fdiv d)

/-- Line 40: `clientData.requests.filter(timestamp => timestamp > windowStart)`
with `windowStart = now - windowMs`. -/
def purgeWindow (cfg : RateConfig) (requests : List Int) (now : Int) : List Int :=
  requests.filter (fun t => decide (now - cfg.windowMs < t))

/-- One call of the `rateLimiter` middleware for a single client key,
acting on that key's retained timestamp list.  Returns the outcome and
the new timestamp list.  On denial the code computes
`resetTime = Math.ceil((windowStart + windowMs - now) / 1000)` and
returns it as `retryAfter`; on success it appends `now` and reports
`remaining = Math.max(0, maxRequests - count)`. -/
def rateLimiter (cfg : RateConfig) (requests : List Int) (now : Int) :
    RateOutcome × List Int :=
  if cfg.maxRequests ≤ (purgeWindow cfg requests now).length then
    (.denied (jsCeilDiv ((now - cfg.windowMs) + cfg.windowMs - now) 1000),
      purgeWindow cfg requests now)
  else
    (.allowed (max 0 ((cfg.maxRequests : Int) -
        ((purgeWindow cfg requests now).length + 1 : Int))),
      purgeWindow cfg requests now ++ [now])

/-- Run a sequence of middleware calls for one client key, starting from
the fresh (empty) record. -/
def runRateLimiter (cfg : RateConfig) (arrivals : List Int) : List Int :=
  arrivals.foldl (fun s now => (rateLimiter cfg s now).2) []

/-- The spec's description of the denial payload: the time (seconds,
rounded up) until the oldest retained timestamp exits the window.  Stated
from the spec's words to exhibit the divergence with the code. -/
def specRetryAfterSeconds (cfg : RateConfig) (requests : List Int) (now : Int) :
    Option Int :=
  match (purgeWindow cfg requests now).head? with
  | none => none
  | some oldest => some (jsCeilDiv (oldest + cfg.windowMs - now) 1000)

theorem purgeWindow_length_le (cfg : RateConfig) (s : List Int) (now : Int) :
    (purgeWindow cfg s now).length ≤ s.length :=
  List.length_filter_le _ _

theorem rateLimiter_snd_length_le (cfg : RateConfig) (s : List Int) (now : Int)
    (h : s.length ≤ cfg.maxRequests) :
    (rateLimiter cfg s now).2.length ≤ cfg.maxRequests := by
  unfold rateLimiter
  by_cases hc : cfg.maxRequests ≤ (purgeWindow cfg s now).length
  · rw [if_pos hc]
    exact le_trans (purgeWindow_length_le cfg s now) h
  · rw [if_neg hc]
    have hlt := Nat.lt_of_not_le hc
    simp only [List.length_append, List.length_cons, List.length_nil]
    omega

theorem runRateLimiter_aux (cfg : RateConfig) (arrivals : List Int) :
    ∀ s : List Int, s.length ≤ cfg.maxRequests →
      (arrivals.foldl (fun s now => (rateLimiter cfg s now).2) s).length ≤
        cfg.maxRequests := by
  induction arrivals with
  | nil => intro s h; simpa using h
  | cons a t ih =>
    intro s h
    simp only [List.foldl_cons]
    exact ih _ (rateLimiter_snd_length_le cfg s a h)

theorem runRateLimiter_length_le (cfg : RateConfig) (arrivals : List Int) :
    (runRateLimiter cfg arrivals).length ≤ cfg.maxRequests :=
  runRateLimiter_aux cfg arrivals [] (by simp)

/-- C1: the spec claims every denial carries `retryAfterSeconds > 0`,
equal to the time until the oldest retained timestamp exits the window.
In the code, a denial's retry value is
`Math.ceil((windowStart + windowMs - now)/1000)` with
`windowStart = now - windowMs`, which is identically `0`: every denial
carries retry value `0`, never positive.  At the concrete state
`windowMs = 10000`, `maxRequests = 2`, timestamps `[0, 100]`, `now = 5000`
the code denies with `0` while the spec's oldest-timestamp computation
gives `5` seconds. -/
theorem c1_denied_retryAfterSeconds_always_zero :
    (∀ (cfg : RateConfig) (s : List Int) (now r : Int),
        (rateLimiter cfg s now).1 = RateOutcome.denied r → r = 0) ∧
    (rateLimiter ⟨10000, 2⟩ [(0 : Int), 100] 5000).1 = RateOutcome.denied 0 ∧
    specRetryAfterSeconds ⟨10000, 2⟩ [(0 : Int), 100] 5000 = some 5 := by
  refine ⟨?_, by decide, by decide⟩
  intro cfg s now r h
  unfold rateLimiter at h
  by_cases hc : cfg.maxRequests ≤ (purgeWindow cfg s now).length
  · rw [if_pos hc] at h
    have harg : (now - cfg.windowMs) + cfg.windowMs - now = 0 := by ring
    rw [harg] at h
    have h0 : jsCeilDiv 0 1000 = 0 := by decide
    rw [h0] at h
    exact (RateOutcome.denied.injEq _ _ ▸ h.symm).symm ▸ rfl
  · rw [if_neg hc] at h
    exact absurd h (by simp)

theorem c1_denied_retryAfterSeconds_always_zero_witness :
    (rateLimiter ⟨1000, 1⟩ [(50 : Int)] 100).1 = RateOutcome.denied 0 ∧
    (0 : Int) = 0 :=
  ⟨by decide,
    c1_denied_retryAfterSeconds_always_zero.1 ⟨1000, 1⟩ [50] 100 0 (by decide)⟩

/-- C2: for every client key and every sequence of calls, the retained
timestamps lying in any trailing window never number more than
`maxRequests` (indeed the whole retained list is bounded), and whenever
`maxRequests` timestamps are already retained within the window the
incoming request is denied. -/
theorem c2_window_count_bounded_and_excess_denied :
    (∀ (cfg : RateConfig) (arrivals : List Int) (now : Int),
        ((runRateLimiter cfg arrivals).filter
            (fun t => decide (now - cfg.windowMs < t))).length ≤
          cfg.maxRequests) ∧
    (∀ (cfg : RateConfig) (s : List Int) (now : Int),
        cfg.maxRequests ≤ (purgeWindow cfg s now).length →
          ∃ r, (rateLimiter cfg s now).1 = RateOutcome.denied r) := by
  constructor
  · intro cfg arrivals now
    exact le_trans (List.length_filter_le _ _)
      (runRateLimiter_length_le cfg arrivals)
  · intro cfg s now h
    unfold rateLimiter
    rw [if_pos h]
    exact ⟨_, rfl⟩

theorem c2_window_count_bounded_and_excess_denied_witness :
    ((runRateLimiter ⟨1000, 1⟩ [(50 : Int), 60, 2000]).filter
        (fun t => decide ((2100 : Int) - 1000 < t))).length ≤ 1 ∧
    (1 ≤ (purgeWindow ⟨1000, 1⟩ [(50 : Int)] 100).length ∧
      ∃ r, (rateLimiter ⟨1000, 1⟩ [(50 : Int)] 100).1 = RateOutcome.denied r) :=
  ⟨c2_window_count_bounded_and_excess_denied.1 ⟨1000, 1⟩ [50, 60, 2000] 2100,
    by decide,
    c2_window_count_bounded_and_excess_denied.2 ⟨1000, 1⟩ [50] 100 (by decide)⟩

/-- C9: a denied call never appends the current timestamp — the record
after a denial is exactly the purge of the previous record to the
in-window timestamps. -/
theorem c9_denied_call_keeps_purged_record :
    ∀ (cfg : RateConfig) (s : List Int) (now r : Int),
      (rateLimiter cfg s now).1 = RateOutcome.denied r →
        (rateLimiter cfg s now).2 =
          s.filter (fun t => decide (now - cfg.windowMs < t)) := by
  intro cfg s now r h
  unfold rateLimiter at h ⊢
  by_cases hc : cfg.maxRequests ≤ (purgeWindow cfg s now).length
  · rw [if_pos hc]
    rfl
  · rw [if_neg hc] at h
    exact absurd h (by simp)

theorem c9_denied_call_keeps_purged_record_witness :
    (rateLimiter ⟨1000, 1⟩ [(50 : Int), -5000] 100).2 =
      ([(50 : Int), -5000].filter (fun t => decide ((100 : Int) - 1000 < t))) :=
  c9_denied_call_keeps_purged_record ⟨1000, 1⟩ [50, -5000] 100 0 (by decide)

/-! ## Character-level string helpers

JS string operations (`split`, `trim`, regex scanning) are embedded as
structural recursions over `List Char` so that every definition is
kernel-executable.  `\s` and `trim` use the ASCII whitespace set
`[ \t\n\r\v\f]`.
-/

/-- JS `\s` / trim whitespace class (ASCII part). -/
def isJsSpace (c : Char) : Bool :=
  c == ' ' || c == '\t' || c == '\n' || c == '\r' || c == '\x0b' || c == '\x0c'

/-- JS `String.prototype.split(sep)` for a one-character separator:
splits on every occurrence, keeping empty segments. -/
def splitOnChar (sep : Char) : List Char → List (List Char)
  | [] => [[]]
  | c :: cs =>
    if c == sep then [] :: splitOnChar sep cs
    else
      match splitOnChar sep cs with
      | [] => [[c]]
      | h :: t => (c :: h) :: t

/-- JS `String.prototype.trim()`: strip leading and trailing whitespace. -/
def trimChars (l : List Char) : List Char :=
  ((l.dropWhile isJsSpace).reverse.dropWhile isJsSpace).reverse

/-! ## IP blacklist guard (middleware/ipBlacklist.js) -/

/-- Seed blacklist (lines 7-11). -/
def blacklistedIPs : List String := ["192.168.1.100", "10.0.0.5", "127.0.0.2"]

/-- Seed whitelist (lines 14-18). -/
def whitelistedIPs : List String := ["127.0.0.1", "::1", "::ffff:127.0.0.1"]

inductive GuardDecision where
  | proceed
  | deny
deriving DecidableEq

/-- The `ipBlacklist` middleware decision (lines 24-43): whitelist first,
then blacklist, otherwise pass through. -/
def ipBlacklist (wl bl : List String) (ip : String) : GuardDecision :=
  if wl.contains ip then .proceed
  else if bl.contains ip then .deny
  else .proceed

/-- Character class of the IPv6 check regex `/^[0-9a-fA-F:]+$/`. -/
def isHexColonChar (c : Char) : Bool :=
  c.isDigit || (decide ('a' ≤ c) && decide (c ≤ 'f')) ||
    (decide ('A' ≤ c) && decide (c ≤ 'F')) || c == ':'

/-- Regex `/^(\d{1,3}\.){3}\d{1,3}$/`: exactly four dot-separated runs of one
to three digits. -/
def ipv4Shaped (s : String) : Bool :=
  (splitOnChar '.' s.data).length == 4 &&
    (splitOnChar '.' s.data).all
      (fun p => decide (1 ≤ p.length) && decide (p.length ≤ 3) &&
        p.all Char.isDigit)

/-- Regex `/^[0-9a-fA-F:]+$/`. -/
def ipv6Shaped (s : String) : Bool :=
  s != "" && s.data.all isHexColonChar

inductive AdminError where
  | invalidAddress
  | invalidFormat
  | whitelistConflict
deriving DecidableEq

/-- Function `addToBlacklist` (lines 64-87).  A thrown error is modelled as
`Except.error` and, since the code throws before any mutation, the
returned set is the unchanged input in every error case. -/
def addToBlacklist (wl bl : List String) (ip : String) :
    Except AdminError Bool × List String :=
  if ip == "" then (.error .invalidAddress, bl)
  else if !(ipv4Shaped ip) && !(ipv6Shaped ip) then (.error .invalidFormat, bl)
  else if wl.contains ip then (.error .whitelistConflict, bl)
  else if bl.contains ip then (.ok false, bl)
  else (.ok true, bl ++ [ip])

/-- Function `removeFromBlacklist` (lines 92-100).  Note: the only validation in
the source is the falsy/type check on the argument; there is no IPv4/IPv6
format check. -/
def removeFromBlacklist (bl : List String) (ip : String) :
    Except AdminError Bool × List String :=
  if ip == "" then (.error .invalidAddress, bl)
  else (.ok (bl.contains ip), bl.erase ip)

deriving instance DecidableEq for Except

theorem contains_true_of_mem {l : List String} {a : String} (h : a ∈ l) :
    l.contains a = true := by
  simpa [List.contains] using List.elem_iff.mpr h

theorem mem_of_contains_true {l : List String} {a : String}
    (h : l.contains a = true) : a ∈ l := by
  exact List.elem_iff.mp (by simpa [List.contains] using h)

/-- C3 counterexample: `"::ffff:127.0.0.1"` is in the seed whitelist, yet
`addToBlacklist` rejects it with the format error, not the whitelist
conflict, because the format regexes accept neither an IPv4-mapped IPv6
address (the `::ffff:` part fails the IPv4 shape, the dots fail the IPv6
shape).  This refutes "always fails with WhitelistConflict". -/
theorem c3_whitelisted_add_counterexample :
    whitelistedIPs.contains "::ffff:127.0.0.1" = true ∧
    (addToBlacklist whitelistedIPs blacklistedIPs "::ffff:127.0.0.1").1 =
      Except.error AdminError.invalidFormat ∧
    (addToBlacklist whitelistedIPs blacklistedIPs "::ffff:127.0.0.1").1 ≠
      Except.error AdminError.whitelistConflict := by
  refine ⟨by decide, by decide, by decide⟩

/-- C3 (amended): a whitelisted address is always admitted by the guard
regardless of the blacklist; `addToBlacklist` on a whitelisted address
always fails and leaves the blacklist unchanged — with `WhitelistConflict`
when the address passes the IPv4/IPv6 shape check, and with the format
error otherwise. -/
theorem c3_whitelist_overrides_blacklist :
    ∀ (wl bl : List String) (a : String), wl.contains a = true →
      ipBlacklist wl bl a = GuardDecision.proceed ∧
      (addToBlacklist wl bl a).2 = bl ∧
      (∃ e, (addToBlacklist wl bl a).1 = Except.error e) ∧
      ((ipv4Shaped a || ipv6Shaped a) = true → a ≠ "" →
        (addToBlacklist wl bl a).1 = Except.error AdminError.whitelistConflict) := by
  intro wl bl a hwl
  have hguard : ipBlacklist wl bl a = GuardDecision.proceed := by
    unfold ipBlacklist
    rw [if_pos hwl]
  refine ⟨hguard, ?_, ?_, ?_⟩
  · unfold addToBlacklist
    by_cases h0 : (a == "") = true
    · rw [if_pos h0]
    · rw [if_neg h0]
      by_cases h1 : (!(ipv4Shaped a) && !(ipv6Shaped a)) = true
      · rw [if_pos h1]
      · rw [if_neg h1, if_pos hwl]
  · unfold addToBlacklist
    by_cases h0 : (a == "") = true
    · rw [if_pos h0]; exact ⟨_, rfl⟩
    · rw [if_neg h0]
      by_cases h1 : (!(ipv4Shaped a) && !(ipv6Shaped a)) = true
      · rw [if_pos h1]; exact ⟨_, rfl⟩
      · rw [if_neg h1, if_pos hwl]; exact ⟨_, rfl⟩
  · intro hfmt hne
    unfold addToBlacklist
    have h0 : ¬((a == "") = true) := by
      simp only [beq_iff_eq]
      exact hne
    rw [if_neg h0]
    have h1 : ¬((!(ipv4Shaped a) && !(ipv6Shaped a)) = true) := by
      simp only [Bool.and_eq_true, Bool.not_eq_true']
      rcases Bool.or_eq_true_iff.mp hfmt with h | h
      · intro hcon; exact absurd h (by rw [hcon.1]; simp)
      · intro hcon; exact absurd h (by rw [hcon.2]; simp)
    rw [if_neg h1, if_pos hwl]

theorem c3_whitelist_overrides_blacklist_witness :
    ipBlacklist whitelistedIPs blacklistedIPs "127.0.0.1" = GuardDecision.proceed ∧
    (addToBlacklist whitelistedIPs blacklistedIPs "127.0.0.1").2 = blacklistedIPs ∧
    (∃ e, (addToBlacklist whitelistedIPs blacklistedIPs "127.0.0.1").1 =
      Except.error e) ∧
    ((ipv4Shaped "127.0.0.1" || ipv6Shaped "127.0.0.1") = true →
      "127.0.0.1" ≠ "" →
      (addToBlacklist whitelistedIPs blacklistedIPs "127.0.0.1").1 =
        Except.error AdminError.whitelistConflict) :=
  c3_whitelist_overrides_blacklist whitelistedIPs blacklistedIPs "127.0.0.1"
    (by decide)

/-- C7 counterexample: `"not-an-ip!"` is neither IPv4- nor IPv6-shaped,
yet `removeFromBlacklist` succeeds with `false` instead of failing with
the format error — the source performs no format validation on removal. -/
theorem c7_remove_malformed_counterexample :
    ipv4Shaped "not-an-ip!" = false ∧
    ipv6Shaped "not-an-ip!" = false ∧
    (removeFromBlacklist blacklistedIPs "not-an-ip!").1 = Except.ok false ∧
    (removeFromBlacklist blacklistedIPs "not-an-ip!").1 ≠
      Except.error AdminError.invalidFormat := by
  refine ⟨by decide, by decide, by decide, by decide⟩

/-- C7 (amended): `removeFromBlacklist` fails (with the invalid-address
error) only on the empty string; on every non-empty address — well-formed
or not — it returns `ok` with `true` exactly when the address was present
(and then the set shrinks by that entry), `false` when it was absent (and
then the set is unchanged). -/
theorem c7_remove_returns_whether_removed :
    ∀ (bl : List String) (ip : String), ip ≠ "" →
      ((removeFromBlacklist bl ip).1 = Except.ok true ↔ ip ∈ bl) ∧
      ((removeFromBlacklist bl ip).1 = Except.ok false ↔ ip ∉ bl) ∧
      (ip ∈ bl → (removeFromBlacklist bl ip).2.length + 1 = bl.length) ∧
      (ip ∉ bl → (removeFromBlacklist bl ip).2 = bl) := by
  intro bl ip hne
  have h0 : ¬((ip == "") = true) := by simp [hne]
  unfold removeFromBlacklist
  rw [if_neg h0]
  refine ⟨by simp, by simp, ?_, ?_⟩
  · intro hmem
    have h1 := List.length_erase_of_mem hmem
    have h2 : 0 < bl.length := List.length_pos.mpr (by rintro rfl; simp at hmem)
    show (bl.erase ip).length + 1 = bl.length
    omega
  · intro hmem
    show bl.erase ip = bl
    exact List.erase_of_not_mem hmem

theorem c7_remove_returns_whether_removed_witness :
    (((removeFromBlacklist blacklistedIPs "10.0.0.5").1 = Except.ok true ↔
        "10.0.0.5" ∈ blacklistedIPs) ∧
      ((removeFromBlacklist blacklistedIPs "10.0.0.5").1 = Except.ok false ↔
        "10.0.0.5" ∉ blacklistedIPs) ∧
      ("10.0.0.5" ∈ blacklistedIPs →
        (removeFromBlacklist blacklistedIPs "10.0.0.5").2.length + 1 =
          blacklistedIPs.length) ∧
      ("10.0.0.5" ∉ blacklistedIPs →
        (removeFromBlacklist blacklistedIPs "10.0.0.5").2 = blacklistedIPs)) :=
  c7_remove_returns_whether_removed blacklistedIPs "10.0.0.5" (by decide)

/-! ## Sanitizer (middleware/sanitizer.js)

`sanitizeString` applies, in order:
1. `str.replace(/<script[^>]*>.*?<\/script>/gi, '')`
2. `str.replace(/on\w+\s*=\s*["'][^"']*["']/gi, '')`
3. `str.replace(/javascript:/gi, '')`
4. entity-encoding of `&`, `<`, `>`, `"`, `'`, `/` in that order.

The regex scans are embedded as left-to-right scanners over `List Char`:
at each position the pattern is tried; on a match the scan resumes after
the match (the JS `g` flag semantics), otherwise the character is kept
and the scan moves one position right.  Each scanner carries a fuel
argument, initialised to the input length, so that every definition is a
kernel-executable structural recursion; a successful match always
consumes at least one character, so the fuel never runs out on the
initial call.  `.` does not match line terminators (`\n`, `\r`);
`[^>]` and `[^"']` do.  Case-insensitive literals are compared through
`Char.toLower`.
-/

/-- Case-insensitive "the text starts with this (lowercase) pattern". -/
def ciStartsWith : List Char → List Char → Bool
  | [], _ => true
  | _ :: _, [] => false
  | p :: ps, c :: cs => (c.toLower == p) && ciStartsWith ps cs

def scriptWord : List Char := ['s', 'c', 'r', 'i', 'p', 't']

def closeScriptTag : List Char := ['<', '/', 's', 'c', 'r', 'i', 'p', 't', '>']

/-- Fragment `[^>]*>` after the tag name: skip to the first `>`, failing if there
is none. -/
def findGt : List Char → Option (List Char)
  | [] => none
  | c :: cs => if c == '>' then some cs else findGt cs

/-- Fragment `.*?<\/script>` (case-insensitive, lazy): at each position first try
the closing tag, otherwise consume one non-line-terminator character. -/
def scanScriptClose : List Char → Option (List Char)
  | [] => none
  | c :: cs =>
    if ciStartsWith closeScriptTag (c :: cs) then some (cs.drop 8)
    else if c == '\n' || c == '\r' then none
    else scanScriptClose cs

/-- Try `/<script[^>]*>.*?<\/script>/i` at the position `c :: cs`,
returning the suffix after the match. -/
def matchScriptAt (c : Char) (cs : List Char) : Option (List Char) :=
  if c == '<' && ciStartsWith scriptWord cs then
    match findGt (cs.drop 6) with
    | none => none
    | some r => scanScriptClose r
  else none

def removeScriptsF : Nat → List Char → List Char
  | _, [] => []
  | 0, l => l
  | n + 1, c :: cs =>
    match matchScriptAt c cs with
    | some rest => removeScriptsF n rest
    | none => c :: removeScriptsF n cs

def removeScripts (l : List Char) : List Char := removeScriptsF l.length l

/-- JS `\w`. -/
def isWordChar (c : Char) : Bool := c.isAlpha || c.isDigit || c == '_'

def isQuoteChar (c : Char) : Bool := c == '"' || c == '\''

/-- Fragment `\w+` (greedy; at least one character). -/
def skipWordPlus : List Char → Option (List Char)
  | [] => none
  | c :: cs => if isWordChar c then some (cs.dropWhile isWordChar) else none

def expectEq : List Char → Option (List Char)
  | [] => none
  | c :: cs => if c == '=' then some cs else none

def expectQuote : List Char → Option (List Char)
  | [] => none
  | c :: cs => if isQuoteChar c then some cs else none

/-- Try `/on\w+\s*=\s*["'][^"']*["']/i` at the position
`c1 :: c2 :: rest`, returning the suffix after the match. -/
def matchHandlerAt (c1 c2 : Char) (rest : List Char) : Option (List Char) :=
  if c1.toLower == 'o' && c2.toLower == 'n' then
    match skipWordPlus rest with
    | none => none
    | some r1 =>
      match expectEq (r1.dropWhile isJsSpace) with
      | none => none
      | some r2 =>
        match expectQuote (r2.dropWhile isJsSpace) with
        | none => none
        | some r3 => expectQuote (r3.dropWhile (fun c => !(isQuoteChar c)))
  else none

def removeHandlersF : Nat → List Char → List Char
  | _, [] => []
  | 0, l => l
  | _ + 1, [c] => [c]
  | n + 1, c1 :: c2 :: rest =>
    match matchHandlerAt c1 c2 rest with
    | some r => removeHandlersF n r
    | none => c1 :: removeHandlersF n (c2 :: rest)

def removeHandlers (l : List Char) : List Char := removeHandlersF l.length l

def jsSchemeChars : List Char :=
  ['j', 'a', 'v', 'a', 's', 'c', 'r', 'i', 'p', 't', ':']

def removeJsSchemeF : Nat → List Char → List Char
  | _, [] => []
  | 0, l => l
  | n + 1, c :: cs =>
    if ciStartsWith jsSchemeChars (c :: cs) then removeJsSchemeF n (cs.drop 10)
    else c :: removeJsSchemeF n cs

def removeJsScheme (l : List Char) : List Char := removeJsSchemeF l.length l

/-- Whether `javascript:` occurs (case-insensitively) anywhere in `l`. -/
def hasJsScheme : List Char → Bool
  | [] => false
  | c :: cs => ciStartsWith jsSchemeChars (c :: cs) || hasJsScheme cs

/-- One global single-character replacement
`str.replace(/t/g, rep)`. -/
def encodeChar (t : Char) (rep : List Char) (l : List Char) : List Char :=
  l.flatMap (fun c => if c == t then rep else [c])

/-- Lines 197-203: the six chained replacements, `&` first. -/
def encodeEntities (l : List Char) : List Char :=
  encodeChar '/' ['&', '#', 'x', '2', 'F', ';']
    (encodeChar '\'' ['&', '#', 'x', '2', '7', ';']
      (encodeChar '"' ['&', 'q', 'u', 'o', 't', ';']
        (encodeChar '>' ['&', 'g', 't', ';']
          (encodeChar '<' ['&', 'l', 't', ';']
            (encodeChar '&' ['&', 'a', 'm', 'p', ';'] l)))))

def sanitizeStringL (l : List Char) : List Char :=
  encodeEntities (removeJsScheme (removeHandlers (removeScripts l)))

/-- Function `sanitizeString` (lines 188-206). -/
def sanitizeString (s : String) : String := String.mk (sanitizeStringL s.data)

/-! ## Structured values and `deepSanitize` (lines 212-244)

JS values reaching the sanitizer are primitives, arrays and plain
objects; `Object.entries` enumerates own keys in insertion order, so an
object is an ordered association list. -/

mutual
inductive JValue where
  | str (s : String)
  | num (n : Int)
  | bool (b : Bool)
  | null
  | arr (l : JList)
  | obj (o : JObj)
deriving DecidableEq

inductive JList where
  | nil
  | cons (hd : JValue) (tl : JList)
deriving DecidableEq

inductive JObj where
  | nil
  | cons (k : String) (v : JValue) (tl : JObj)
deriving DecidableEq
end

/-- Line 228: `cleanKey.startsWith('$') || cleanKey.includes('.') ||
cleanKey !== key`. -/
def keyIsDangerous (original cleanKey : String) : Bool :=
  (match cleanKey.data with
   | c :: _ => c == '$'
   | [] => false) ||
  cleanKey.data.contains '.' || cleanKey != original

mutual
def deepSanitize : JValue → JValue
  | .str s => .str (sanitizeString s)
  | .num n => .num n
  | .bool b => .bool b
  | .null => .null
  | .arr l => .arr (sanitizeArr l)
  | .obj o => .obj (sanitizeObj o)

def sanitizeArr : JList → JList
  | .nil => .nil
  | .cons v t => .cons (deepSanitize v) (sanitizeArr t)

def sanitizeObj : JObj → JObj
  | .nil => .nil
  | .cons k v t =>
    if keyIsDangerous k (sanitizeString k) then sanitizeObj t
    else .cons (sanitizeString k) (deepSanitize v) (sanitizeObj t)
end

def objKeys : JObj → List String
  | .nil => []
  | .cons k _ t => k :: objKeys t

def objLookup : JObj → String → Option JValue
  | .nil, _ => none
  | .cons k v t, f => if k == f then some v else objLookup t f

/-! ### Cleanliness predicates for the round-trip property -/

/-- A character altered by no cleaning rule by itself: not one of the six
entity-encoded characters `& < > " ' /` (this also rules out the quotes
an event-handler match needs and the `<` a script match needs). -/
def cleanChar (c : Char) : Bool :=
  !(c == '&' || c == '<' || c == '>' || c == '"' || c == '\'' || c == '/')

/-- A string no cleaning rule alters: no markup-special character and no
`javascript:` occurrence. -/
def cleanString (s : String) : Bool :=
  s.data.all cleanChar && !(hasJsScheme s.data)

mutual
def cleanVal : JValue → Bool
  | .str s => cleanString s
  | .num _ => true
  | .bool _ => true
  | .null => true
  | .arr l => cleanList l
  | .obj o => cleanObj o

def cleanList : JList → Bool
  | .nil => true
  | .cons v t => cleanVal v && cleanList t

def cleanObj : JObj → Bool
  | .nil => true
  | .cons k v t =>
    cleanString k &&
    !(match k.data with
      | c :: _ => c == '$'
      | [] => false) &&
    !(k.data.contains '.') && cleanVal v && cleanObj t
end

/-! ### Strings the cleaning rules do not alter -/

theorem removeScriptsF_clean : ∀ (n : Nat) (l : List Char),
    (∀ c ∈ l, (c == '<') = false) → removeScriptsF n l = l := by
  intro n
  induction n with
  | zero => intro l h; cases l <;> rfl
  | succ n ih =>
    intro l h
    cases l with
    | nil => rfl
    | cons c cs =>
      have hc := h c (List.mem_cons_self c cs)
      have hm : matchScriptAt c cs = none := by
        unfold matchScriptAt
        rw [hc]
        simp
      simp only [removeScriptsF, hm]
      exact congrArg (c :: ·) (ih cs (fun x hx => h x (List.mem_cons.mpr (Or.inr hx))))

theorem expectQuote_none {l : List Char} (h : ∀ c ∈ l, isQuoteChar c = false) :
    expectQuote l = none := by
  cases l with
  | nil => rfl
  | cons c cs =>
    simp only [expectQuote, h c (List.mem_cons_self c cs)]
    simp

theorem skipWordPlus_sublist {l r : List Char} (h : skipWordPlus l = some r) :
    r.Sublist l := by
  cases l with
  | nil => simp [skipWordPlus] at h
  | cons c cs =>
    simp only [skipWordPlus] at h
    by_cases hw : isWordChar c = true
    · rw [if_pos hw] at h
      injection h with h
      rw [← h]
      exact (List.dropWhile_sublist _).trans (List.sublist_cons_self c cs)
    · rw [if_neg hw] at h
      exact absurd h (by simp)

theorem expectEq_sublist {l r : List Char} (h : expectEq l = some r) :
    r.Sublist l := by
  cases l with
  | nil => simp [expectEq] at h
  | cons c cs =>
    simp only [expectEq] at h
    by_cases hw : (c == '=') = true
    · rw [if_pos hw] at h
      injection h with h
      rw [← h]
      exact List.sublist_cons_self c cs
    · rw [if_neg hw] at h
      exact absurd h (by simp)

theorem matchHandlerAt_none (c1 c2 : Char) (rest : List Char)
    (h : ∀ c ∈ rest, isQuoteChar c = false) :
    matchHandlerAt c1 c2 rest = none := by
  unfold matchHandlerAt
  by_cases hon : (c1.toLower == 'o' && c2.toLower == 'n') = true
  · rw [if_pos hon]
    cases hsw : skipWordPlus rest with
    | none => rfl
    | some r1 =>
      have hr1 : r1.Sublist rest := skipWordPlus_sublist hsw
      cases heq : expectEq (r1.dropWhile isJsSpace) with
      | none => simp only [heq]
      | some r2 =>
        have hr2 : r2.Sublist rest :=
          ((expectEq_sublist heq).trans (List.dropWhile_sublist _)).trans hr1
        have hq : expectQuote (r2.dropWhile isJsSpace) = none := by
          refine expectQuote_none (fun c hc => ?_)
          exact h c (((List.dropWhile_sublist _).trans hr2).mem hc)
        simp only [heq, hq]
  · rw [if_neg hon]

theorem removeHandlersF_clean : ∀ (n : Nat) (l : List Char),
    (∀ c ∈ l, isQuoteChar c = false) → removeHandlersF n l = l := by
  intro n
  induction n with
  | zero => intro l h; cases l <;> rfl
  | succ n ih =>
    intro l h
    match l with
    | [] => rfl
    | [c] => rfl
    | c1 :: c2 :: rest =>
      have hm : matchHandlerAt c1 c2 rest = none :=
        matchHandlerAt_none c1 c2 rest
          (fun c hc => h c (List.mem_cons.mpr (Or.inr (List.mem_cons.mpr (Or.inr hc)))))
      simp only [removeHandlersF, hm]
      exact congrArg (c1 :: ·)
        (ih (c2 :: rest) (fun x hx => h x (List.mem_cons.mpr (Or.inr hx))))

theorem removeJsSchemeF_clean : ∀ (n : Nat) (l : List Char),
    hasJsScheme l = false → removeJsSchemeF n l = l := by
  intro n
  induction n with
  | zero => intro l h; cases l <;> rfl
  | succ n ih =>
    intro l h
    cases l with
    | nil => rfl
    | cons c cs =>
      have h2 : ciStartsWith jsSchemeChars (c :: cs) = false ∧
          hasJsScheme cs = false := by
        have := h
        unfold hasJsScheme at this
        exact Bool.or_eq_false_iff.mp this
      simp only [removeJsSchemeF, h2.1]
      simp only [Bool.false_eq_true, if_false]
      exact congrArg (c :: ·) (ih cs h2.2)

theorem encodeChar_clean (t : Char) (rep : List Char) :
    ∀ (l : List Char), (∀ c ∈ l, (c == t) = false) →
      encodeChar t rep l = l := by
  intro l h
  induction l with
  | nil => rfl
  | cons c cs ih =>
    have hc := h c (List.mem_cons_self c cs)
    simp only [encodeChar, List.flatMap_cons, hc]
    simp only [Bool.false_eq_true, if_false, List.singleton_append]
    exact congrArg (c :: ·) (ih (fun x hx => h x (List.mem_cons.mpr (Or.inr hx))))

theorem cleanChar_spec {c : Char} (h : cleanChar c = true) :
    (c == '&') = false ∧ (c == '<') = false ∧ (c == '>') = false ∧
      (c == '"') = false ∧ (c == '\'') = false ∧ (c == '/') = false := by
  unfold cleanChar at h
  simp only [Bool.not_eq_true', Bool.or_eq_false_iff] at h
  obtain ⟨⟨⟨⟨⟨h1, h2⟩, h3⟩, h4⟩, h5⟩, h6⟩ := h
  exact ⟨h1, h2, h3, h4, h5, h6⟩

theorem encodeEntities_clean (l : List Char)
    (h : ∀ c ∈ l, cleanChar c = true) : encodeEntities l = l := by
  unfold encodeEntities
  rw [encodeChar_clean '&' _ l (fun c hc => (cleanChar_spec (h c hc)).1),
    encodeChar_clean '<' _ l (fun c hc => (cleanChar_spec (h c hc)).2.1),
    encodeChar_clean '>' _ l (fun c hc => (cleanChar_spec (h c hc)).2.2.1),
    encodeChar_clean '"' _ l (fun c hc => (cleanChar_spec (h c hc)).2.2.2.1),
    encodeChar_clean '\'' _ l (fun c hc => (cleanChar_spec (h c hc)).2.2.2.2.1),
    encodeChar_clean '/' _ l (fun c hc => (cleanChar_spec (h c hc)).2.2.2.2.2)]

theorem sanitizeString_clean_id (s : String) (h : cleanString s = true) :
    sanitizeString s = s := by
  unfold cleanString at h
  obtain ⟨hall, hjs⟩ := Bool.and_eq_true_iff.mp h
  have hall2 : ∀ c ∈ s.data, cleanChar c = true := List.all_eq_true.mp hall
  have hjs2 : hasJsScheme s.data = false := by
    simpa using hjs
  have hlt : ∀ c ∈ s.data, (c == '<') = false :=
    fun c hc => (cleanChar_spec (hall2 c hc)).2.1
  have hqu : ∀ c ∈ s.data, isQuoteChar c = false := by
    intro c hc
    unfold isQuoteChar
    rw [(cleanChar_spec (hall2 c hc)).2.2.2.1,
      (cleanChar_spec (hall2 c hc)).2.2.2.2.1]
    rfl
  unfold sanitizeString sanitizeStringL removeScripts removeHandlers removeJsScheme
  rw [removeScriptsF_clean _ _ hlt, removeHandlersF_clean _ _ hqu,
    removeJsSchemeF_clean _ _ hjs2, encodeEntities_clean _ hall2]

mutual

theorem deepSanitize_id_of_clean :
    ∀ (v : JValue), cleanVal v = true → deepSanitize v = v
  | .str s, h => by
    simp only [deepSanitize]
    rw [sanitizeString_clean_id s (by simpa [cleanVal] using h)]
  | .num _, _ => rfl
  | .bool _, _ => rfl
  | .null, _ => rfl
  | .arr l, h => by
    simp only [deepSanitize]
    rw [sanitizeArr_id_of_clean l (by simpa [cleanVal] using h)]
  | .obj o, h => by
    simp only [deepSanitize]
    rw [sanitizeObj_id_of_clean o (by simpa [cleanVal] using h)]

theorem sanitizeArr_id_of_clean :
    ∀ (l : JList), cleanList l = true → sanitizeArr l = l
  | .nil, _ => rfl
  | .cons v t, h => by
    have h' := h
    simp only [cleanList, Bool.and_eq_true] at h'
    simp only [sanitizeArr]
    rw [deepSanitize_id_of_clean v h'.1, sanitizeArr_id_of_clean t h'.2]

theorem sanitizeObj_id_of_clean :
    ∀ (o : JObj), cleanObj o = true → sanitizeObj o = o
  | .nil, _ => rfl
  | .cons k v t, h => by
    have h' := h
    simp only [cleanObj, Bool.and_eq_true] at h'
    obtain ⟨⟨⟨⟨h1, h2⟩, h3⟩, h4⟩, h5⟩ := h'
    rw [Bool.not_eq_true'] at h2 h3
    have hks : sanitizeString k = k := sanitizeString_clean_id k h1
    have hkd : keyIsDangerous k k = false := by
      unfold keyIsDangerous
      rw [h2, h3, bne_self_eq_false]
      rfl
    simp only [sanitizeObj]
    rw [hks, hkd]
    simp only [Bool.false_eq_true, if_false]
    rw [deepSanitize_id_of_clean v h4, sanitizeObj_id_of_clean t h5]

end

/-- C5: a structured value in which no mapping key starts with `$`, no
mapping key contains `.`, and no string (key or value) contains a
markup-special character or a pattern the cleaning rules alter, is
returned by the sanitizer deeply unchanged. -/
theorem c5_sanitizer_roundtrip :
    ∀ v : JValue, cleanVal v = true → deepSanitize v = v :=
  fun v h => deepSanitize_id_of_clean v h

def cleanValExample : JValue :=
  .obj (.cons "name" (.str "Alice")
    (.cons "tags" (.arr (.cons (.str "x") (.cons (.num 3) .nil)))
      (.cons "ok" (.bool true) .nil)))

theorem c5_sanitizer_roundtrip_witness :
    cleanVal cleanValExample = true ∧
    deepSanitize cleanValExample = cleanValExample :=
  ⟨by decide, c5_sanitizer_roundtrip cleanValExample (by decide)⟩

/-- The spec's injection example as a structured value. -/
def injectionObj : JObj :=
  .cons "$where" (.str "1==1")
    (.cons "a.b" (.num 1)
      (.cons "name" (.str "<script>alert(1)</script>") .nil))

/-- C4: sanitizing `{"$where": "1==1", "a.b": 1, "name":
"<script>alert(1)</script>"}` drops the `$where` and `a.b` entries and
maps `name` to the empty string: the script span is removed outright and
no literal `<` or `>` remains. -/
theorem c4_injection_example_defeated :
    deepSanitize (JValue.obj injectionObj) =
      JValue.obj (JObj.cons "name" (JValue.str "") JObj.nil) ∧
    (objKeys (sanitizeObj injectionObj)).contains "$where" = false ∧
    (objKeys (sanitizeObj injectionObj)).contains "a.b" = false ∧
    objLookup (sanitizeObj injectionObj) "name" = some (JValue.str "") ∧
    sanitizeString "<script>alert(1)</script>" = "" ∧
    (("".data.contains '<') || ("".data.contains '>')) = false := by
  refine ⟨by decide, by decide, by decide, by decide, by decide, by decide⟩

/-- C10: `sanitizeString` is not idempotent: on `"&"` one pass yields
`"&amp;"` and a second pass re-encodes the `&` of the produced entity,
yielding `"&amp;amp;"`. -/
theorem c10_sanitizeString_not_idempotent :
    sanitizeString "&" = "&amp;" ∧
    sanitizeString (sanitizeString "&") = "&amp;amp;" ∧
    sanitizeString (sanitizeString "&") ≠ sanitizeString "&" := by
  refine ⟨by decide, by decide, by decide⟩

/-! ## Field validator (`validators` and `createValidator`, lines 294-355)

Rules reference one of the four named validators; a candidate record maps
field names to strings.  JS truthiness: a missing field and the empty
string are falsy; a `minLength`/`maxLength` of `0` is falsy. -/

inductive VKind where
  | email
  | phone
  | alphanumeric
  | name
deriving DecidableEq

/-- Regex `/^[^\s@]+@[^\s@]+\.[^\s@]+$/`: no whitespace, exactly one `@` with a
non-empty local part, and a `.` strictly inside the part after the `@`. -/
def validateEmail (s : String) : Bool :=
  s.data.all (fun c => !(isJsSpace c)) && (s.data.count '@' == 1) &&
    (match splitOnChar '@' s.data with
     | [a, b] => !(a.isEmpty) && ((b.drop 1).dropLast.contains '.')
     | _ => false)

/-- Regex `/^\+?[\d\s\-\(\)]{10,}$/`. -/
def validatePhone (s : String) : Bool :=
  let l := match s.data with
    | '+' :: t => t
    | t => t
  decide (10 ≤ l.length) &&
    l.all (fun c => c.isDigit || isJsSpace c || c == '-' || c == '(' || c == ')')

/-- Regex `/^[a-zA-Z0-9]+$/`. -/
def validateAlphanumeric (s : String) : Bool :=
  !(s.data.isEmpty) && s.data.all (fun c => c.isAlpha || c.isDigit)

/-- Regex `/^[a-zA-Z\s]{2,50}$/`. -/
def validateName (s : String) : Bool :=
  decide (2 ≤ s.data.length) && decide (s.data.length ≤ 50) &&
    s.data.all (fun c => c.isAlpha || isJsSpace c)

def runKind : VKind → String → Bool
  | .email, s => validateEmail s
  | .phone, s => validatePhone s
  | .alphanumeric, s => validateAlphanumeric s
  | .name, s => validateName s

structure FieldRules where
  required : Bool
  kind : Option VKind
  minLength : Option Nat
  maxLength : Option Nat
deriving DecidableEq

/-- JS truthiness of an optional numeric rule (`undefined` and `0` are
falsy). -/
def optNatTruthy : Option Nat → Bool
  | none => false
  | some m => m != 0

/-- The per-field body of `createValidator`'s loop (lines 324-343):
required first (with `continue`), then format, then minLength, then
maxLength, collecting messages in that order. -/
def checkField (field : String) (rules : FieldRules) (value : Option String) :
    List String :=
  let vtruthy := match value with
    | none => false
    | some s => s != ""
  if rules.required && (!vtruthy || (trimChars (value.getD "").data).isEmpty) then
    [field ++ " is required"]
  else
    (if vtruthy &&
        (match rules.kind with
         | some k => !(runKind k (value.getD ""))
         | none => false) then
      [field ++ " has invalid format"]
    else []) ++
    (if vtruthy && optNatTruthy rules.minLength &&
        decide ((value.getD "").data.length < rules.minLength.getD 0) then
      [field ++ " must be at least " ++ toString (rules.minLength.getD 0) ++
        " characters"]
    else []) ++
    (if vtruthy && optNatTruthy rules.maxLength &&
        decide (rules.maxLength.getD 0 < (value.getD "").data.length) then
      [field ++ " must be no more than " ++ toString (rules.maxLength.getD 0) ++
        " characters"]
    else [])

/-- Lookup of `req.body[field]`. -/
def lookupField (body : List (String × String)) (f : String) : Option String :=
  (body.find? (fun kv => kv.1 == f)).map (fun kv => kv.2)

/-- All violation messages, in rule-declaration order. -/
def validatorErrors (rules : List (String × FieldRules))
    (body : List (String × String)) : List String :=
  (rules.map (fun fr => checkField fr.1 fr.2 (lookupField body fr.1))).flatten

inductive ValidationOutcome where
  | proceed
  | reject (errors : List String)
deriving DecidableEq

/-- The middleware produced by `createValidator`: reject with the
collected messages when there is at least one, else pass through. -/
def createValidator (rules : List (String × FieldRules))
    (body : List (String × String)) : ValidationOutcome :=
  if 0 < (validatorErrors rules body).length then
    .reject (validatorErrors rules body)
  else .proceed

def nameRules : List (String × FieldRules) :=
  [("name", ⟨true, none, some 2, none⟩)]

/-- C6: with rule `{name: {required, minLength 2}}`, input `{name: ""}`
yields exactly the required violation (length checks skipped via
`continue`), and input `{name: "A"}` yields exactly the too-short
violation.  Within one field the checks emit in the order required,
format, minLength, maxLength (third conjunct: a value violating all
three non-required checks gets them in that order), and violations are
collected across all fields in declaration order rather than stopping at
the first failing field (fourth conjunct). -/
theorem c6_validator_ordering :
    createValidator nameRules [("name", "")] =
      ValidationOutcome.reject ["name is required"] ∧
    createValidator nameRules [("name", "A")] =
      ValidationOutcome.reject ["name must be at least 2 characters"] ∧
    checkField "x" ⟨false, some VKind.alphanumeric, some 5, some 1⟩ (some "a!") =
      ["x has invalid format", "x must be at least 5 characters",
        "x must be no more than 1 characters"] ∧
    createValidator [("a", ⟨true, none, none, none⟩),
        ("b", ⟨true, none, none, none⟩)] [] =
      ValidationOutcome.reject ["a is required", "b is required"] := by
  refine ⟨by decide, by decide, by decide, by decide⟩

/-! ## Client key derivation (`getClientIP`, lines 49-59) -/

structure HttpRequest where
  ip : Option String
  xForwardedFor : Option String
  xRealIp : Option String
  connectionRemoteAddress : Option String
  socketRemoteAddress : Option String
  connectionSocketRemoteAddress : Option String

/-- JS `a || b` on an optional string: `undefined` and `""` fall
through. -/
def jsOrStr (a : Option String) (b : String) : String :=
  match a with
  | none => b
  | some s => if s == "" then b else s

/-- Expression `h.split(',')[0].trim()`. -/
def xffFirstEntry (h : String) : String :=
  String.mk (trimChars ((splitOnChar ',' h.data).headD []))

/-- Function `getClientIP` as the source's `||` chain. -/
def getClientIP (req : HttpRequest) : String :=
  jsOrStr req.ip
    (jsOrStr (req.xForwardedFor.map xffFirstEntry)
      (jsOrStr req.xRealIp
        (jsOrStr req.connectionRemoteAddress
          (jsOrStr req.socketRemoteAddress
            (jsOrStr req.connectionSocketRemoteAddress "0.0.0.0")))))

/-- A header value counts as "defined" when it is present and non-empty
(JS truthiness). -/
def definedStr (o : Option String) : Option String :=
  match o with
  | none => none
  | some s => if s == "" then none else some s

/-- The raw transport-layer peer address: the first defined of the three
socket fields the source consults. -/
def rawPeerAddress (req : HttpRequest) : Option String :=
  (definedStr req.connectionRemoteAddress).orElse (fun _ =>
    (definedStr req.socketRemoteAddress).orElse (fun _ =>
      definedStr req.connectionSocketRemoteAddress))

/-- The spec's ClientKey precedence, stated from its words: (1) the
pre-resolved trusted client address, (2) the first comma-separated entry
of the forwarded-for header, trimmed, (3) the real-IP header, (4) the raw
transport-layer peer address, (5) the sentinel `"0.0.0.0"`. -/
def clientKeySpec (req : HttpRequest) : String :=
  ((definedStr req.ip).orElse (fun _ =>
    (definedStr (req.xForwardedFor.map xffFirstEntry)).orElse (fun _ =>
      (definedStr req.xRealIp).orElse (fun _ =>
        rawPeerAddress req)))).getD "0.0.0.0"

theorem jsOrStr_eq_getD (a : Option String) (b : String) :
    jsOrStr a b = (definedStr a).getD b := by
  cases a with
  | none => rfl
  | some s =>
    by_cases h : (s == "") = true
    · simp [jsOrStr, definedStr, h]
    · simp [jsOrStr, definedStr, h]

theorem getD_orElse (a : Option String) (b : Option String) (d : String) :
    (a.orElse (fun _ => b)).getD d = a.getD (b.getD d) := by
  cases a <;> rfl

/-- C8: the derived ClientKey is the first defined value in the spec's
precedence order — pre-resolved address, first trimmed forwarded-for
entry, real-IP header, raw transport peer address, sentinel
`"0.0.0.0"`. -/
theorem c8_clientKey_precedence :
    ∀ req : HttpRequest, getClientIP req = clientKeySpec req := by
  intro req
  unfold getClientIP clientKeySpec rawPeerAddress
  rw [jsOrStr_eq_getD, jsOrStr_eq_getD, jsOrStr_eq_getD, jsOrStr_eq_getD,
    jsOrStr_eq_getD, jsOrStr_eq_getD]
  rw [getD_orElse, getD_orElse, getD_orElse, getD_orElse, getD_orElse]
